import Mathlib

/-!
Verification of the declarative field-validation engine of the
meetup-event-planner repository: the predicate library, the rule
combinator `join`, and the schema aggregator `createValidator`.

The JavaScript module is shallowly embedded: form-field values are
strings, absent fields are `undefined`, several predicates return
`null`, so the value space is the three-armed `JSVal`. Regular-expression
matching and `new Date(...)` parsing are host primitives of the
JavaScript runtime, not code of this repository; they are modelled as
explicit function parameters (a `String → Bool` test per pattern, an
`Option Int` timestamp parse where `none` is an Invalid Date). The
wall-clock read `new Date()` inside `isInFuture` is modelled by an
explicit `now : Int` parameter.
-/

namespace MeetupValidation

/-- JavaScript values that flow through the validation engine: field
values are strings, absent fields are `undefined`, and some predicates
return `null` for "no error". -/
inductive JSVal where
  | undef : JSVal
  | null : JSVal
  | str : String → JSVal
  deriving DecidableEq, Repr

open JSVal

/-- JavaScript truthiness restricted to `JSVal`: `undefined`, `null` and
the empty string are falsy; every nonempty string is truthy. -/
def truthy : JSVal → Bool
  | undef => false
  | null => false
  | str s => !(s == "")

/-- JavaScript `&&`: returns the left operand when it is falsy,
otherwise the right operand. -/
def jsAnd (a b : JSVal) : JSVal :=
  if truthy a then b else a

/-- JavaScript string coercion, as performed by `RegExp.prototype.test`
and `Array.prototype.join` on their inputs. -/
def jsToString : JSVal → String
  | undef => "undefined"
  | null => "null"
  | str s => s

/-- A flat data record (the `data` object): a JavaScript object modelled
as an association list from field name to value. -/
abbrev Record := List (String × JSVal)

/-- Property read `data[key]`: a missing key yields `undefined`. -/
def getField (data : Record) (key : String) : JSVal :=
  match data.lookup key with
  | some v => v
  | none => undef

/-- Source `noValue`:
`value === undefined || value === null || value === ''`. -/
def noValue : JSVal → Bool
  | undef => true
  | null => true
  | str s => s == ""

/-- A rule: `(value, data) => error-message-or-falsy`. -/
abbrev Rule := JSVal → Record → JSVal

/-- Source `join`: maps every rule over `(value, data)`, filters the
truthy results, and takes element `[0]` — in JavaScript, indexing an
empty array yields `undefined`. -/
def join (rules : List Rule) (value : JSVal) (data : Record) : JSVal :=
  ((rules.map (fun rule => rule value data)).filter (fun error => truthy error)).headD undef

/-- Source `validateWithRE`: returns the message when the regular
expression does not accept the (string-coerced) value, and returns
nothing (`undefined`) otherwise. The compiled pattern is modelled by its
`test` function. -/
def validateWithRE (test : String → Bool) (message : String) (value : JSVal) : JSVal :=
  if !(test (jsToString value)) then str message else undef

/-- Source `minLength`: the no-value guard short-circuits `&&` before
`value.length` is read, so the length is only read from a string. -/
def minLength (minimum : Nat) (value : JSVal) : JSVal :=
  if noValue value then undef
  else
    match value with
    | str s =>
        if s.length < minimum then
          str s!"Value must contain at least {minimum} characters"
        else undef
    | _ => undef

/-- Source `maxLength`, with the same guard shape as `minLength`. -/
def maxLength (maximum : Nat) (value : JSVal) : JSVal :=
  if noValue value then undef
  else
    match value with
    | str s =>
        if s.length > maximum then
          str s!"Value must be no more than {maximum} characters in length"
        else undef
    | _ => undef

/-- Source `valueRequired`. -/
def valueRequired (value : JSVal) : JSVal :=
  if noValue value then str "Value Required" else undef

/-- Source `containsSpecialChar`:
`value && validateWithRE(specialCharRE, ...)(value)`. -/
def containsSpecialChar (specialCharRE : String → Bool) (value : JSVal) : JSVal :=
  jsAnd value (validateWithRE specialCharRE "Must contain 1 special character." value)

/-- Source `isInteger`. -/
def isInteger (isIntegerRE : String → Bool) (value : JSVal) : JSVal :=
  jsAnd value (validateWithRE isIntegerRE "Must be an integer value." value)

/-- Source `containsNumber`. -/
def containsNumber (numberRE : String → Bool) (value : JSVal) : JSVal :=
  jsAnd value (validateWithRE numberRE "Must Contain at least one number" value)

/-- Source `containsLowercase`. -/
def containsLowercase (lowercaseRE : String → Bool) (value : JSVal) : JSVal :=
  jsAnd value (validateWithRE lowercaseRE "Must contain at least one lowercase letter." value)

/-- Source `containsUppercase`. -/
def containsUppercase (uppercaseRE : String → Bool) (value : JSVal) : JSVal :=
  jsAnd value (validateWithRE uppercaseRE "Must contain at least one uppercase letter" value)

/-- Source `containsTwoWords`: lowercases the value when it is truthy
(so `toLowerCase` is only called on a string) and tests the lowercased
form. -/
def containsTwoWords (twoWordsRE : String → Bool) (value : JSVal) : JSVal :=
  let lowercaseValue := if truthy value then str ((jsToString value).toLower) else str ""
  jsAnd value (validateWithRE twoWordsRE "Must contain two words, i.e. full name." lowercaseValue)

/-- Source `isEmail`. -/
def isEmail (emailRE : String → Bool) (value : JSVal) : JSVal :=
  jsAnd value (validateWithRE emailRE "Must be a valid email address." value)

/-- Source `isValidDate`. -/
def isValidDate (dateRE : String → Bool) (value : JSVal) : JSVal :=
  jsAnd value (validateWithRE dateRE "Must be a valid date time." value)

/-- Date parsing `new Date(v).valueOf()` as a host primitive: `none`
models an Invalid Date (a `NaN` timestamp). -/
abbrev DateParse := JSVal → Option Int

/-- JavaScript `<` on two dates: every comparison involving an Invalid
Date (`NaN`) is false. -/
def dateLt : Option Int → Option Int → Bool
  | some a, some b => a < b
  | _, _ => false

/-- Source `isInFuture`: `new Date()` (always a valid date, timestamp
`now`) is compared with `new Date(value)`; the message is returned when
`setDate < currentDate`, and `null` otherwise. -/
def isInFuture (parse : DateParse) (now : Int) (value : JSVal) : JSVal :=
  if dateLt (parse value) (some now) then str "Please choose a date in the future" else null

/-- Source `validateOneOf`: `isValid` is membership of `value` in
`values`; the function returns the message when `isValid` holds and
`null` otherwise — exactly as written in the source. -/
def validateOneOf (values : List JSVal) (message : String) (value : JSVal) : JSVal :=
  let isValid := 0 < (values.filter (fun item => item == value)).length
  if isValid then str message else null

/-- Source `matches`: strict equality against the closed-over target,
with no no-value guard. -/
def «matches» (matchVal : JSVal) (currentVal : JSVal) : JSVal :=
  if matchVal == currentVal then null else str "Values must match"

/-- Source `oneOf`: instantiates `validateOneOf` with the templated
message built from `values.join(', ')`. -/
def oneOf (values : List JSVal) (value : JSVal) : JSVal :=
  validateOneOf values ("Value must be one of: " ++ String.intercalate ", " (values.map jsToString)) value

/-- Source `noLaterThan`: parses the named sibling field and the
candidate value as dates and fails when `endDate < startDate`. -/
def noLaterThan (parse : DateParse) (field : String) (value : JSVal) (data : Record) : JSVal :=
  if dateLt (parse value) (parse (getField data field)) then
    str "The end date must come after the start date"
  else null

/-- Source `createValidator`: for each schema key, the rule set is run
with `join` against `(data[key], data)` and the error is inserted into
the output object only when truthy. The `forEach`-with-conditional-insert
over an object with unique keys is `filterMap` on the association-list
model. Schema entries are already rule lists: the source's
`[].concat(...)` normalization of a bare rule into a one-element list is
performed at the type. -/
def createValidator (validationRules : List (String × List Rule)) (data : Record) : Record :=
  validationRules.filterMap (fun kv =>
    let error := join kv.2 (getField data kv.1) data
    if truthy error then some (kv.1, error) else none)

/-- Compiled regular-expression constants of the module, modelled by
their `test` functions; the regex engine is a host primitive and no
claim depends on the recognized languages. -/
structure REEnv where
  isIntegerRE : String → Bool
  numberRE : String → Bool
  twoWordsRE : String → Bool
  lowercaseRE : String → Bool
  uppercaseRE : String → Bool
  specialCharRE : String → Bool
  emailRE : String → Bool
  dateRE : String → Bool

/-- Schema grammar: the rules a form author can place in a RuleSet, each
a library predicate together with its closed-over configuration
(factories are applied to string and number literals, as in the
repository's form schemas). -/
inductive LibRule where
  | minLength (minimum : Nat)
  | maxLength (maximum : Nat)
  | valueRequired
  | containsSpecialChar
  | isInteger
  | containsNumber
  | containsLowercase
  | containsUppercase
  | containsTwoWords
  | isEmail
  | isValidDate
  | isInFuture
  | oneOf (values : List String)
  | matchesRule (matchVal : JSVal)
  | noLaterThan (field : String)
  deriving DecidableEq, Repr

/-- A schema whose rule sets are drawn from the predicate library. -/
abbrev LibSchema := List (String × List LibRule)

/-- Interpretation of a library rule as the corresponding source
predicate. -/
def evalRule (env : REEnv) (parse : DateParse) (now : Int) : LibRule → Rule
  | .minLength n => fun value _ => minLength n value
  | .maxLength n => fun value _ => maxLength n value
  | .valueRequired => fun value _ => valueRequired value
  | .containsSpecialChar => fun value _ => containsSpecialChar env.specialCharRE value
  | .isInteger => fun value _ => isInteger env.isIntegerRE value
  | .containsNumber => fun value _ => containsNumber env.numberRE value
  | .containsLowercase => fun value _ => containsLowercase env.lowercaseRE value
  | .containsUppercase => fun value _ => containsUppercase env.uppercaseRE value
  | .containsTwoWords => fun value _ => containsTwoWords env.twoWordsRE value
  | .isEmail => fun value _ => isEmail env.emailRE value
  | .isValidDate => fun value _ => isValidDate env.dateRE value
  | .isInFuture => fun value _ => isInFuture parse now value
  | .oneOf vs => fun value _ => oneOf (vs.map JSVal.str) value
  | .matchesRule m => fun value _ => «matches» m value
  | .noLaterThan f => fun value data => noLaterThan parse f value data

/-- Source `createValidator` applied to a schema built from the
predicate library. -/
def evalValidator (env : REEnv) (parse : DateParse) (now : Int)
    (schema : LibSchema) (data : Record) : Record :=
  createValidator (schema.map (fun kv => (kv.1, kv.2.map (evalRule env parse now)))) data

/-- Property access `value.length`, with the JavaScript exception on
`undefined` and `null`. -/
def jsLengthE : JSVal → Except String Nat
  | str s => .ok s.length
  | undef => .error "TypeError: Cannot read properties of undefined (reading length)"
  | null => .error "TypeError: Cannot read properties of null (reading length)"

/-- Method call `value.toLowerCase()`, with the JavaScript exception on
`undefined` and `null`. -/
def jsToLowerE : JSVal → Except String String
  | str s => .ok s.toLower
  | undef => .error "TypeError: value.toLowerCase is not a function on undefined"
  | null => .error "TypeError: value.toLowerCase is not a function on null"

/-- Source `minLength` with explicit exception semantics: `&&`
short-circuits, so `value.length` is read only after `!noValue(value)`
holds. -/
def minLengthE (minimum : Nat) (value : JSVal) : Except String JSVal :=
  if noValue value then .ok undef
  else do
    let len ← jsLengthE value
    if len < minimum then .ok (str s!"Value must contain at least {minimum} characters")
    else .ok undef

/-- Source `maxLength` with explicit exception semantics. -/
def maxLengthE (maximum : Nat) (value : JSVal) : Except String JSVal :=
  if noValue value then .ok undef
  else do
    let len ← jsLengthE value
    if len > maximum then .ok (str s!"Value must be no more than {maximum} characters in length")
    else .ok undef

/-- Source `containsTwoWords` with explicit exception semantics:
`value ? value.toLowerCase() : ''` calls `toLowerCase` only on a truthy
value. -/
def containsTwoWordsE (twoWordsRE : String → Bool) (value : JSVal) : Except String JSVal := do
  let lowercaseValue ← if truthy value then str <$> jsToLowerE value else .ok (str "")
  .ok (jsAnd value (validateWithRE twoWordsRE "Must contain two words, i.e. full name." lowercaseValue))

/-- Library rules with JavaScript exception semantics. Only
`value.length` and `value.toLowerCase()` access properties of the field
value; every other predicate applies only total operations (strict
equality, regex test with string coercion, date construction and
comparison) and so is the plain predicate wrapped in `ok`. -/
def evalRuleE (env : REEnv) (parse : DateParse) (now : Int) :
    LibRule → JSVal → Record → Except String JSVal
  | .minLength n, value, _ => minLengthE n value
  | .maxLength n, value, _ => maxLengthE n value
  | .containsTwoWords, value, _ => containsTwoWordsE env.twoWordsRE value
  | r, value, data => .ok (evalRule env parse now r value data)

/-- Source `join` over library rules, with exception propagation: every
rule is evaluated in list order, then the truthy results are filtered
and the first is returned. -/
def joinE (env : REEnv) (parse : DateParse) (now : Int)
    (rules : List LibRule) (value : JSVal) (data : Record) : Except String JSVal := do
  let results ← rules.mapM (fun rule => evalRuleE env parse now rule value data)
  .ok ((results.filter (fun error => truthy error)).headD undef)

/-- Source `createValidator` with exception propagation: each schema key
is processed in order and the truthy errors form the output object. -/
def createValidatorE (env : REEnv) (parse : DateParse) (now : Int)
    (schema : LibSchema) (data : Record) : Except String Record := do
  let entries ← schema.mapM (fun kv => do
    let error ← joinE env parse now kv.2 (getField data kv.1) data
    .ok (kv.1, error))
  .ok (entries.filter (fun kv => truthy kv.2))

/-- Trivial regex environment used to instantiate universally quantified
theorems on concrete inputs. -/
def envA : REEnv :=
  ⟨fun _ => true, fun _ => true, fun _ => true, fun _ => true,
   fun _ => true, fun _ => true, fun _ => true, fun _ => true⟩

/-- Date parse under which no value parses (every `new Date(v)` is an
Invalid Date); used to instantiate theorems on concrete inputs. -/
def parseNone : DateParse := fun _ => none

/-- Date parse under which exactly the string "now" parses, to timestamp
0; used to instantiate the date theorems on concrete inputs. -/
def parseEpoch : DateParse := fun v => if v == JSVal.str "now" then some 0 else none

/-- Specification-side scan: the first truthy element of a result list,
`undefined` when there is none. -/
def firstTruthy : List JSVal → JSVal
  | [] => undef
  | e :: rest => if truthy e then e else firstTruthy rest

lemma filter_headD_eq_firstTruthy (l : List JSVal) :
    (l.filter (fun error => truthy error)).headD undef = firstTruthy l := by
  induction l with
  | nil => rfl
  | cons a t ih =>
      by_cases h : truthy a = true
      · simp only [List.filter_cons, if_pos h, List.headD_cons, firstTruthy, if_pos h]
      · simp only [List.filter_cons, if_neg h, firstTruthy, if_neg h]
        exact ih

lemma join_eq_firstTruthy (rules : List Rule) (value : JSVal) (data : Record) :
    join rules value data = firstTruthy (rules.map fun rule => rule value data) := by
  unfold join
  exact filter_headD_eq_firstTruthy _

lemma firstTruthy_of_all_falsy {l : List JSVal} (h : ∀ e ∈ l, truthy e = false) :
    firstTruthy l = undef := by
  induction l with
  | nil => rfl
  | cons a t ih =>
      simp [firstTruthy, h a (by simp)]
      exact ih fun e he => h e (by simp [he])

lemma firstTruthy_truthy {l : List JSVal} (h : truthy (firstTruthy l) = true) :
    ∃ e ∈ l, truthy e = true := by
  induction l with
  | nil => simp [firstTruthy, truthy] at h
  | cons a t ih =>
      by_cases ha : truthy a = true
      · exact ⟨a, by simp, ha⟩
      · rw [firstTruthy, if_neg (by simp [ha])] at h
        obtain ⟨e, he, het⟩ := ih h
        exact ⟨e, by simp [he], het⟩

lemma truthy_str {v : JSVal} (h : truthy v = true) : ∃ s, v = str s ∧ s ≠ "" := by
  cases v with
  | undef => simp [truthy] at h
  | null => simp [truthy] at h
  | str s =>
      refine ⟨s, rfl, ?_⟩
      simpa [truthy] using h

/-- C2: for every list of rules, every value and every record,
`join(rules)(value, data)` equals the first truthy result among
`rule(value, data)` taken in list order, and equals `undefined` when
every predicate passes. -/
theorem c2_join_first_truthy (rules : List Rule) (value : JSVal) (data : Record) :
    join rules value data = firstTruthy (rules.map fun rule => rule value data) ∧
    ((∀ rule ∈ rules, truthy (rule value data) = false) → join rules value data = undef) := by
  refine ⟨join_eq_firstTruthy rules value data, fun h => ?_⟩
  rw [join_eq_firstTruthy]
  apply firstTruthy_of_all_falsy
  intro e he
  obtain ⟨rule, hr, rfl⟩ := List.mem_map.mp he
  exact h rule hr

/-- Witness for C2 at a concrete one-rule list whose predicate passes. -/
theorem c2_witness :
    join [fun value _ => valueRequired value] (JSVal.str "x") [] = JSVal.undef :=
  (c2_join_first_truthy _ _ _).2 (by decide)

/-- C4: every format, length and character-class predicate of the
library reports no error (a falsy result) when the value is `undefined`,
`null` or the empty string; the required-value predicate treats such
absence as an error. -/
theorem c4_absent_values_pass (tst : String → Bool) (minimum maximum : Nat)
    (value : JSVal) (h : noValue value = true) :
    truthy (minLength minimum value) = false ∧
    truthy (maxLength maximum value) = false ∧
    truthy (isEmail tst value) = false ∧
    truthy (containsTwoWords tst value) = false ∧
    truthy (isInteger tst value) = false ∧
    truthy (containsNumber tst value) = false ∧
    truthy (containsLowercase tst value) = false ∧
    truthy (containsUppercase tst value) = false ∧
    truthy (containsSpecialChar tst value) = false ∧
    truthy (isValidDate tst value) = false ∧
    valueRequired value = JSVal.str "Value Required" := by
  cases value with
  | undef =>
      simp [minLength, maxLength, isEmail, containsTwoWords, isInteger, containsNumber,
        containsLowercase, containsUppercase, containsSpecialChar, isValidDate,
        valueRequired, jsAnd, truthy, noValue]
  | null =>
      simp [minLength, maxLength, isEmail, containsTwoWords, isInteger, containsNumber,
        containsLowercase, containsUppercase, containsSpecialChar, isValidDate,
        valueRequired, jsAnd, truthy, noValue]
  | str s =>
      have hs : s = "" := by simpa [noValue] using h
      subst hs
      simp [minLength, maxLength, isEmail, containsTwoWords, isInteger, containsNumber,
        containsLowercase, containsUppercase, containsSpecialChar, isValidDate,
        valueRequired, jsAnd, truthy, noValue]

/-- Witness for C4 at `undefined` with a concrete regex tester. -/
theorem c4_witness :
    truthy (minLength 1 JSVal.undef) = false ∧
    truthy (maxLength 1 JSVal.undef) = false ∧
    truthy (isEmail (fun _ => true) JSVal.undef) = false ∧
    truthy (containsTwoWords (fun _ => true) JSVal.undef) = false ∧
    truthy (isInteger (fun _ => true) JSVal.undef) = false ∧
    truthy (containsNumber (fun _ => true) JSVal.undef) = false ∧
    truthy (containsLowercase (fun _ => true) JSVal.undef) = false ∧
    truthy (containsUppercase (fun _ => true) JSVal.undef) = false ∧
    truthy (containsSpecialChar (fun _ => true) JSVal.undef) = false ∧
    truthy (isValidDate (fun _ => true) JSVal.undef) = false ∧
    valueRequired JSVal.undef = JSVal.str "Value Required" :=
  c4_absent_values_pass (fun _ => true) 1 1 JSVal.undef rfl

/-- C5: evaluation of `oneOf` at a member and at a non-member of the
allowed set. The code returns the membership error message exactly when
the value IS in the set, and `null` when it is not — the inverse of the
claimed membership predicate (in the source, `validateOneOf` returns
`message` when `isValid` holds). -/
theorem c5_code_eval :
    oneOf [JSVal.str "a", JSVal.str "b"] (JSVal.str "a") =
      JSVal.str "Value must be one of: a, b" ∧
    oneOf [JSVal.str "a", JSVal.str "b"] (JSVal.str "c") = JSVal.null := by
  decide

/-- C6 counterexample: a value that parses to a date equal to the
current instant is accepted (the code returns `null`), while the claim
says it must be rejected. -/
theorem c6_counterexample :
    parseEpoch (JSVal.str "now") = some 0 ∧ ¬ ((0 : Int) < 0) ∧
    isInFuture parseEpoch 0 (JSVal.str "now") = JSVal.null := by
  decide

/-- C6 (amended): `isInFuture` returns the error message exactly when
the parsed date is strictly before the current instant; values that
parse to the current instant itself, and unparsable values, are
accepted (the predicate returns `null`). -/
theorem c6_strictly_before_now (parse : DateParse) (now : Int) (value : JSVal) :
    (isInFuture parse now value = JSVal.str "Please choose a date in the future" ↔
      ∃ t, parse value = some t ∧ t < now) ∧
    (isInFuture parse now value ≠ JSVal.str "Please choose a date in the future" →
      isInFuture parse now value = JSVal.null) := by
  unfold isInFuture
  cases hp : parse value with
  | none => simp [dateLt]
  | some t =>
      by_cases hlt : t < now
      · simp [dateLt, hlt]
      · simp [dateLt, hlt]

/-- Witness for C6 at a concrete parse where the value is strictly in
the past. -/
theorem c6_witness :
    isInFuture parseEpoch 1 (JSVal.str "now") =
      JSVal.str "Please choose a date in the future" :=
  (c6_strictly_before_now parseEpoch 1 (JSVal.str "now")).1.mpr ⟨0, rfl, by decide⟩

/-- C9: ordering predicates pass on unparsable dates: `isInFuture`
returns `null` whenever the value does not parse, and `noLaterThan`
returns `null` whenever either the value or the named sibling field does
not parse. -/
theorem c9_unparsable_dates_pass (parse : DateParse) (now : Int) (field : String)
    (value : JSVal) (data : Record) :
    (parse value = none → isInFuture parse now value = JSVal.null) ∧
    ((parse value = none ∨ parse (getField data field) = none) →
      noLaterThan parse field value data = JSVal.null) := by
  constructor
  · intro h
    simp [isInFuture, h, dateLt]
  · intro h
    unfold noLaterThan
    rcases h with h | h
    · simp [h, dateLt]
    · cases hv : parse value <;> simp [h, hv, dateLt]

/-- Witness for C9 under the everywhere-invalid parse. -/
theorem c9_witness :
    isInFuture parseNone 0 JSVal.undef = JSVal.null ∧
    noLaterThan parseNone "start" JSVal.undef [] = JSVal.null :=
  ⟨(c9_unparsable_dates_pass parseNone 0 "start" JSVal.undef []).1 rfl,
   (c9_unparsable_dates_pass parseNone 0 "start" JSVal.undef []).2 (Or.inl rfl)⟩

/-- C10: `matches` applies no no-value guard: for every target and every
different candidate — including `undefined`, `null` and the empty
string — it reports the mismatch message. -/
theorem c10_matches_no_guard (matchVal currentVal : JSVal) (h : matchVal ≠ currentVal) :
    «matches» matchVal currentVal = JSVal.str "Values must match" := by
  simp [«matches», h]

/-- Witness for C10: an absent (`undefined`) candidate against a
nonempty target still reports the mismatch message. -/
theorem c10_witness :
    «matches» (JSVal.str "x") JSVal.undef = JSVal.str "Values must match" :=
  c10_matches_no_guard _ _ (by decide)

/-- C3: the error map is sparse and meaningful: an entry for a field
exists only when at least one rule of that field's rule set is truthy on
`(data[field], data)`, and every entry carries a nonempty error string.
Contrapositively, a field all of whose rules pass is absent from the
map. -/
theorem c3_sparse_error_map (validationRules : List (String × List Rule))
    (data : Record) (field : String) (err : JSVal)
    (hmem : (field, err) ∈ createValidator validationRules data) :
    (∃ rules, (field, rules) ∈ validationRules ∧
      ∃ rule ∈ rules, truthy (rule (getField data field) data) = true) ∧
    ∃ s, err = JSVal.str s ∧ s ≠ "" := by
  unfold createValidator at hmem
  obtain ⟨⟨k, rules⟩, hkv, hg⟩ := List.mem_filterMap.mp hmem
  simp only at hg
  split at hg
  case isTrue h =>
    simp only [Option.some.injEq, Prod.mk.injEq] at hg
    obtain ⟨rfl, rfl⟩ := hg
    refine ⟨⟨rules, hkv, ?_⟩, truthy_str h⟩
    rw [join_eq_firstTruthy] at h
    obtain ⟨e, he, het⟩ := firstTruthy_truthy h
    obtain ⟨rule, hr, rfl⟩ := List.mem_map.mp he
    exact ⟨rule, hr, het⟩
  case isFalse h => exact absurd hg (by simp)

/-- Concrete one-field schema used to witness C3. -/
def schemaW : List (String × List Rule) := [("name", [fun value _ => valueRequired value])]

/-- Witness for C3 at a concrete schema and the empty record. -/
theorem c3_witness :
    (∃ rules, ("name", rules) ∈ schemaW ∧
      ∃ rule ∈ rules, truthy (rule (getField [] "name") []) = true) ∧
    ∃ s, JSVal.str "Value Required" = JSVal.str s ∧ s ≠ "" :=
  c3_sparse_error_map schemaW [] "name" (JSVal.str "Value Required") (by decide)

/-- Recognizer for the rule that C1 must exclude: the equality predicate
`matches`, the one library rule with no no-value guard. -/
def isMatchesRule : LibRule → Bool
  | .matchesRule _ => true
  | _ => false

lemma truthy_value_required : truthy (JSVal.str "Value Required") = true := by decide

lemma truthy_undef : truthy JSVal.undef = false := rfl

/-- Every library rule other than `valueRequired` and `matches` is falsy
at `undefined` against the empty record (given that `new Date(undefined)`
is an Invalid Date). -/
lemma evalRule_at_undef_falsy (env : REEnv) (parse : DateParse) (now : Int)
    (r : LibRule) (hparse : parse JSVal.undef = none)
    (hv : r ≠ LibRule.valueRequired) (hm : isMatchesRule r = false) :
    truthy (evalRule env parse now r JSVal.undef []) = false := by
  cases r with
  | minLength n => simp [evalRule, minLength, noValue, truthy]
  | maxLength n => simp [evalRule, maxLength, noValue, truthy]
  | valueRequired => exact absurd rfl hv
  | containsSpecialChar => simp [evalRule, containsSpecialChar, jsAnd, truthy]
  | isInteger => simp [evalRule, isInteger, jsAnd, truthy]
  | containsNumber => simp [evalRule, containsNumber, jsAnd, truthy]
  | containsLowercase => simp [evalRule, containsLowercase, jsAnd, truthy]
  | containsUppercase => simp [evalRule, containsUppercase, jsAnd, truthy]
  | containsTwoWords => simp [evalRule, containsTwoWords, jsAnd, truthy]
  | isEmail => simp [evalRule, isEmail, jsAnd, truthy]
  | isValidDate => simp [evalRule, isValidDate, jsAnd, truthy]
  | isInFuture => simp [evalRule, isInFuture, hparse, dateLt, truthy]
  | oneOf vs =>
      have hempty : (vs.map JSVal.str).filter (fun item => item == JSVal.undef) = [] := by
        induction vs with
        | nil => rfl
        | cons a t ih => simp [List.filter_cons, ih]
      simp [evalRule, oneOf, validateOneOf, hempty, truthy]
  | matchesRule m => simp [isMatchesRule] at hm
  | noLaterThan f =>
      simp [evalRule, noLaterThan, getField, hparse, dateLt, truthy]

/-- Joining a matches-free rule set at `undefined` against the empty
record yields the required-value message exactly when the set contains
`valueRequired`, and `undefined` otherwise. -/
lemma join_lib_at_undef (env : REEnv) (parse : DateParse) (now : Int)
    (rules : List LibRule) (hparse : parse JSVal.undef = none)
    (hm : ∀ r ∈ rules, isMatchesRule r = false) :
    join (rules.map (evalRule env parse now)) JSVal.undef [] =
      (if rules.contains LibRule.valueRequired then JSVal.str "Value Required"
       else JSVal.undef) := by
  rw [join_eq_firstTruthy, List.map_map]
  induction rules with
  | nil => rfl
  | cons r t ih =>
      by_cases hv : r = LibRule.valueRequired
      · subst hv
        have : (evalRule env parse now LibRule.valueRequired) JSVal.undef [] =
            JSVal.str "Value Required" := rfl
        simp [firstTruthy, Function.comp, this, truthy_value_required, List.contains_cons]
      · have hfalsy := evalRule_at_undef_falsy env parse now r hparse hv (hm r (by simp))
        have hbeq : (LibRule.valueRequired == r) = false := by
          simp [beq_iff_eq]
          exact fun hh => hv hh.symm
        simp only [List.map_cons, firstTruthy, Function.comp, hfalsy, Bool.false_eq_true,
          if_false, List.contains_cons, hbeq, Bool.false_or]
        exact ih fun r hr => hm r (by simp [hr])

/-- C1 counterexample: on the empty record, a schema whose only rule is
`matches("x")` — a rule set with no required-value rule — still produces
an entry, so the error map's keys are not exactly the required-value
fields. -/
theorem c1_counterexample :
    evalValidator envA parseNone 0
        [("confirm", [LibRule.matchesRule (JSVal.str "x")])] [] =
      [("confirm", JSVal.str "Values must match")] ∧
    LibRule.valueRequired ∉ [LibRule.matchesRule (JSVal.str "x")] := by
  decide

/-- C1 (amended): for every schema whose rule sets contain no `matches`
rule, validating the empty record yields entries for exactly the fields
whose rule set includes `valueRequired`, each mapped to the
required-value message (`new Date(undefined)` is an Invalid Date, so
the date predicates pass). -/
theorem c1_empty_record_required (env : REEnv) (parse : DateParse) (now : Int)
    (schema : LibSchema) (hparse : parse JSVal.undef = none)
    (hm : ∀ kv ∈ schema, ∀ r ∈ kv.2, isMatchesRule r = false) :
    evalValidator env parse now schema [] =
      (schema.filter (fun kv => kv.2.contains LibRule.valueRequired)).map
        (fun kv => (kv.1, JSVal.str "Value Required")) := by
  unfold evalValidator createValidator
  induction schema with
  | nil => rfl
  | cons kv t ih =>
      have hkv : ∀ r ∈ kv.2, isMatchesRule r = false := hm kv (by simp)
      have ht := ih fun kv' hkv' => hm kv' (by simp [hkv'])
      have hget : getField ([] : Record) kv.1 = JSVal.undef := rfl
      simp only [List.map_cons, List.filterMap_cons, List.filter_cons, hget,
        join_lib_at_undef env parse now kv.2 hparse hkv]
      by_cases hc : kv.2.contains LibRule.valueRequired = true
      · rw [if_pos hc, if_pos hc]
        simp [truthy_value_required, ht]
      · rw [if_neg hc, if_neg hc]
        simp [truthy_undef, ht]

/-- Concrete schema used to witness C1: one required field, one optional
email field, one field whose required rule is listed second. -/
def schemaC1 : LibSchema :=
  [("name", [LibRule.valueRequired, LibRule.containsTwoWords]),
   ("email", [LibRule.isEmail]),
   ("type", [LibRule.oneOf ["Social", "Business"], LibRule.valueRequired])]

/-- Witness for C1 at the concrete schema. -/
theorem c1_witness :
    evalValidator envA parseNone 0 schemaC1 [] =
      [("name", JSVal.str "Value Required"), ("type", JSVal.str "Value Required")] :=
  (c1_empty_record_required envA parseNone 0 schemaC1 rfl (by decide)).trans (by decide)

/-- Every library rule other than `isInFuture` ignores the clock. -/
lemma evalRule_now_irrelevant (env : REEnv) (parse : DateParse)
    (r : LibRule) (h : r ≠ LibRule.isInFuture) (now₁ now₂ : Int)
    (value : JSVal) (data : Record) :
    evalRule env parse now₁ r value data = evalRule env parse now₂ r value data := by
  cases r
  case isInFuture => exact absurd rfl h
  all_goals rfl

/-- C8: the validator is deterministic: equal records (and an equal
clock) give equal error maps; and when no rule set contains the
time-dependent `isInFuture`, the result does not depend on the clock at
all — it is a function of schema and record alone. -/
theorem c8_determinism (env : REEnv) (parse : DateParse) (schema : LibSchema)
    (now₁ now₂ : Int) (data₁ data₂ : Record) :
    (now₁ = now₂ → data₁ = data₂ →
      evalValidator env parse now₁ schema data₁ =
        evalValidator env parse now₂ schema data₂) ∧
    ((∀ kv ∈ schema, LibRule.isInFuture ∉ kv.2) → data₁ = data₂ →
      evalValidator env parse now₁ schema data₁ =
        evalValidator env parse now₂ schema data₂) := by
  constructor
  · rintro rfl rfl
    rfl
  · rintro hno rfl
    unfold evalValidator createValidator
    induction schema with
    | nil => rfl
    | cons kv t ih =>
        have ht := ih fun kv' hkv' => hno kv' (List.mem_cons_of_mem _ hkv')
        have hjoin :
            join (kv.2.map (evalRule env parse now₁)) (getField data₁ kv.1) data₁ =
              join (kv.2.map (evalRule env parse now₂)) (getField data₁ kv.1) data₁ := by
          rw [join_eq_firstTruthy, join_eq_firstTruthy, List.map_map, List.map_map]
          congr 1
          apply List.map_congr_left
          intro r hr
          have hF : r ≠ LibRule.isInFuture := by
            intro hrr
            exact hno kv (by simp) (hrr ▸ hr)
          exact evalRule_now_irrelevant env parse r hF now₁ now₂ (getField data₁ kv.1) data₁
        simp only [List.map_cons, List.filterMap_cons, hjoin, ht]

/-- Witness for C8 at a concrete clock-free schema and two different
clocks. -/
theorem c8_witness :
    evalValidator envA parseNone 0 [("name", [LibRule.valueRequired])] [] =
      evalValidator envA parseNone 1 [("name", [LibRule.valueRequired])] [] :=
  (c8_determinism envA parseNone [("name", [LibRule.valueRequired])] 0 1 [] []).2
    (by decide) rfl

/-- Exception-aware evaluation of a library rule always succeeds on
`JSVal` inputs and agrees with the plain evaluation: the only property
accesses are behind the no-value and truthiness guards. -/
lemma evalRuleE_ok (env : REEnv) (parse : DateParse) (now : Int)
    (r : LibRule) (value : JSVal) (data : Record) :
    evalRuleE env parse now r value data =
      Except.ok (evalRule env parse now r value data) := by
  cases r with
  | minLength n =>
      cases value with
      | undef => rfl
      | null => rfl
      | str s =>
          by_cases h0 : noValue (str s) = true
          · simp [evalRuleE, minLengthE, evalRule, minLength, h0]
          · simp only [evalRuleE, minLengthE, evalRule, minLength, if_neg h0, jsLengthE]
            by_cases h1 : s.length < n
            · rw [if_pos h1]
              exact if_pos h1
            · rw [if_neg h1]
              exact if_neg h1
  | maxLength n =>
      cases value with
      | undef => rfl
      | null => rfl
      | str s =>
          by_cases h0 : noValue (str s) = true
          · simp [evalRuleE, maxLengthE, evalRule, maxLength, h0]
          · simp only [evalRuleE, maxLengthE, evalRule, maxLength, if_neg h0, jsLengthE]
            by_cases h1 : s.length > n
            · rw [if_pos h1]
              exact if_pos h1
            · rw [if_neg h1]
              exact if_neg h1
  | containsTwoWords =>
      cases value with
      | undef => rfl
      | null => rfl
      | str s =>
          simp only [evalRuleE, containsTwoWordsE, evalRule, containsTwoWords]
          by_cases h0 : truthy (str s) = true
          · rw [if_pos h0, if_pos h0]
            rfl
          · rw [if_neg h0, if_neg h0]
            rfl
  | valueRequired => rfl
  | containsSpecialChar => rfl
  | isInteger => rfl
  | containsNumber => rfl
  | containsLowercase => rfl
  | containsUppercase => rfl
  | isEmail => rfl
  | isValidDate => rfl
  | isInFuture => rfl
  | oneOf vs => rfl
  | matchesRule m => rfl
  | noLaterThan f => rfl

/-- Mapping an everywhere-successful exception-aware function over a
list succeeds and produces the pointwise results. -/
lemma mapM_ok {α β : Type} (f : α → Except String β) (g : α → β) (l : List α)
    (h : ∀ a ∈ l, f a = Except.ok (g a)) : l.mapM f = Except.ok (l.map g) := by
  induction l with
  | nil => rfl
  | cons a t ih =>
      rw [List.mapM_cons, h a (by simp), ih fun a ha => h a (by simp [ha])]
      rfl

/-- Exception-aware `join` over library rules always succeeds and
agrees with the plain combinator. -/
lemma joinE_ok (env : REEnv) (parse : DateParse) (now : Int)
    (rules : List LibRule) (value : JSVal) (data : Record) :
    joinE env parse now rules value data =
      Except.ok (join (rules.map (evalRule env parse now)) value data) := by
  unfold joinE
  rw [mapM_ok _ (fun r => evalRule env parse now r value data) _
    (fun r _ => evalRuleE_ok env parse now r value data)]
  have hj : join (rules.map (evalRule env parse now)) value data =
      ((rules.map (fun r => evalRule env parse now r value data)).filter
        (fun error => truthy error)).headD JSVal.undef := by
    unfold join
    rw [List.map_map]
    rfl
  rw [hj]
  rfl

/-- Filtering the truthy entries of the fully mapped schema agrees with
the conditional-insertion pass of `createValidator`. -/
lemma filter_joined (env : REEnv) (parse : DateParse) (now : Int)
    (data : Record) (schema : LibSchema) :
    ((schema.map (fun kv =>
        ((kv.1 : String),
          join (kv.2.map (evalRule env parse now)) (getField data kv.1) data))).filter
      (fun kv => truthy kv.2)) =
    evalValidator env parse now schema data := by
  unfold evalValidator createValidator
  induction schema with
  | nil => rfl
  | cons kv t ih =>
      simp only [List.map_cons, List.filter_cons, List.filterMap_cons]
      by_cases h : truthy (join (kv.2.map (evalRule env parse now)) (getField data kv.1) data) = true
      · rw [if_pos h]
        simp only [h, if_true, ih]
      · rw [if_neg h]
        simp only [h, Bool.false_eq_true, if_false, ih]

/-- C7: validation never throws: for every library schema and every
record of `JSVal` values (strings or absent fields), the
exception-aware evaluator returns `ok` of exactly the plain validator's
error map — a missing field is read as `undefined` and handled by the
guards, and every failure is returned as a message string. -/
theorem c7_never_throws (env : REEnv) (parse : DateParse) (now : Int)
    (schema : LibSchema) (data : Record) :
    createValidatorE env parse now schema data =
      Except.ok (evalValidator env parse now schema data) := by
  unfold createValidatorE
  rw [mapM_ok _ (fun kv =>
      ((kv.1 : String),
        join (kv.2.map (evalRule env parse now)) (getField data kv.1) data)) _
    (fun kv _ => by rw [joinE_ok]; rfl)]
  rw [← filter_joined env parse now data schema]
  rfl

end MeetupValidation
